import Mathlib

/-!
# binfile: record codec and decompression dispatch

A shallow embedding of `binfile/doc.go` (`Doc.read`, `readBytes`, `ReadKeySize`,
`Doc.getDecompressReader`, `Doc.Decompress`, `ReadDoc`) and theorems about it.

Modelling choices, all visible in the definitions below:

* a byte is a `Fin 256`; a Go `string` and a Go `[]byte` are lists of bytes, and a
  `[]byte` that may be `nil` is an `Option (List Byte)` (`none` is `nil`);
* an `io.Reader` is the list of bytes not yet read, with the `Read` behaviour of a
  regular file (the `*os.File` that `open2read` hands out): a `Read` into an empty
  buffer returns `(0, nil)`, a `Read` at the end of the data returns `(0, io.EOF)`,
  and every other `Read` fills as much of the buffer as data remains;
* an `int32` is an `Int` in `[-2^31, 2^31)`;
* a Go `(value, error)` result is a tuple with an `Option Error` (`none` is `nil`),
  and a method with a pointer receiver returns the updated receiver;
* the gzip and bzip2 decoders of the Go standard library are parameters (`Codecs`).
-/

namespace Binfile

/-- One byte. -/
abbrev Byte := Fin 256

/-- The error values `Doc.read` and `ReadDoc` can return: `io.EOF`,
`io.ErrUnexpectedEOF`, the package's `InvalidDocumentFound`, `ErrReadKey` and
`ErrNotSupport`, and the errors of the gzip and bzip2 decoders (`codec n`). -/
inductive Error where
  | EOF
  | ErrUnexpectedEOF
  | InvalidDocumentFound
  | ErrReadKey
  | ErrNotSupport
  | codec (code : Nat)
  deriving DecidableEq, Repr

/-- The compression tags, `const ( GZIP = iota; NONE; ZIP; BZIP2; BROTLI; LZ4 )`. -/
def GZIP : Int := 0
def NONE : Int := 1
def ZIP : Int := 2
def BZIP2 : Int := 3
def BROTLI : Int := 4
def LZ4 : Int := 5

/-- `var KeySizeLimit int32 = 100` -/
def KeySizeLimit : Int := 100

/-- `var EmptyDocKey = "empty-doc."`, as its ten bytes. -/
def EmptyDocKey : List Byte := [101, 109, 112, 116, 121, 45, 100, 111, 99, 46]

/-- `type Doc struct { Key string; Content string; CompressContent []byte; CompressType int }` -/
structure Doc where
  Key : List Byte
  Content : List Byte
  CompressContent : Option (List Byte)
  CompressType : Int
  deriving DecidableEq, Repr

/-- The zero value of `Doc` with `CompressType` set: `Doc{CompressType: compressType}`. -/
def Doc.new (compressType : Int) : Doc :=
  { Key := [], Content := [], CompressContent := none, CompressType := compressType }

/-- An `io.Reader` over a regular file: the bytes not yet read. -/
abbrev Reader := List Byte

/-- The result of `r.Read(buf)` for a fresh buffer `buf` of `size` zero bytes: the
buffer afterwards, the count `n`, the error, and the reader afterwards. -/
def Reader.Read (r : Reader) (size : Nat) : List Byte × Nat × Option Error × Reader :=
  if size = 0 then ([], 0, none, r)
  else if r = [] then (List.replicate size 0, 0, some Error.EOF, r)
  else
    let n := min size r.length
    (r.take n ++ List.replicate (size - n) 0, n, none, r.drop n)

/-- The `int32` that four little-endian bytes hold (`binary.LittleEndian`). -/
def int32le (b0 b1 b2 b3 : Byte) : Int :=
  let v : Nat := b0.val + 2 ^ 8 * b1.val + 2 ^ 16 * b2.val + 2 ^ 24 * b3.val
  if v < 2 ^ 31 then (v : Int) else (v : Int) - 2 ^ 32

/-- `func ReadKeySize(r io.Reader) (int32, error)`: `binary.Read` of an `int32` is an
`io.ReadFull` of four bytes, which fails with `io.EOF` when it could read none and
with `io.ErrUnexpectedEOF` when the data ended after one to three bytes. -/
def ReadKeySize (r : Reader) : Int × Option Error × Reader :=
  match r with
  | b0 :: b1 :: b2 :: b3 :: rest => (int32le b0 b1 b2 b3, none, rest)
  | [] => (0, some Error.EOF, [])
  | _ => (0, some Error.ErrUnexpectedEOF, [])

/-- `func readBytes(r io.Reader, size int) ([]byte, error)` (a `nil` result is `[]`). -/
def readBytes (r : Reader) (size : Nat) : List Byte × Option Error × Reader :=
  match r.Read size with
  | (keyBuf, n, err, r1) =>
    match err with
    | some e => ([], some e, r1)
    | none => if n ≠ size then ([], some Error.ErrReadKey, r1) else (keyBuf, none, r1)

/-- `func (doc *Doc) read(r io.Reader) error`: the document afterwards, the error
and the reader afterwards (the `Debug` trace prints and changes nothing). -/
def Doc.read (doc : Doc) (r : Reader) : Doc × Option Error × Reader :=
  match ReadKeySize r with
  | (_, some err, r1) => (doc, some err, r1)
  | (keySize, none, r1) =>
    if keySize ≤ 0 ∨ keySize > KeySizeLimit then
      (doc, some Error.InvalidDocumentFound, r1)
    else
      match readBytes r1 keySize.toNat with
      | (_, some err, r2) => (doc, some err, r2)
      | (keyBuf, none, r2) =>
        let doc1 := { doc with Key := keyBuf }
        match ReadKeySize r2 with
        | (_, some err, r3) => (doc1, some err, r3)
        | (valueSize, none, r3) =>
          if valueSize < 0 then (doc1, none, r3)
          else
            match r3.Read valueSize.toNat with
            | (_, _, some err, r4) => (doc1, some err, r4)
            | (valueBuf, _, none, r4) =>
              ({ doc1 with CompressContent := some valueBuf }, none, r4)

/-- An `io.ReadCloser` handed to `io.ReadAll`: the bytes it yields and the error,
if any, at which the stream stops. -/
structure ReadCloser where
  data : List Byte
  err : Option Error

/-- The decoders of the Go standard library: `gzip.NewReader` over a byte slice
(which returns a reader or, when the header cannot be read, an error) and
`bzip2.NewReader` (which cannot fail). -/
structure Codecs where
  gzipNewReader : List Byte → Except Error ReadCloser
  bzip2NewReader : List Byte → ReadCloser

/-- The bytes of a `[]byte` that may be `nil`, as `bytes.NewReader` and
`bytes.NewBuffer` see them. -/
def sliceBytes (b : Option (List Byte)) : List Byte := b.getD []

/-- `func (doc *Doc) getDecompressReader() (reader io.ReadCloser, err error)` -/
def Doc.getDecompressReader (cs : Codecs) (doc : Doc) : Except Error ReadCloser :=
  if doc.CompressType = GZIP then
    cs.gzipNewReader (sliceBytes doc.CompressContent)
  else if doc.CompressType = BZIP2 then
    Except.ok (cs.bzip2NewReader (sliceBytes doc.CompressContent))
  else Except.error Error.ErrNotSupport

/-- `io.ReadAll(reader)`: the data read and the error. -/
def ReadAll (rc : ReadCloser) : List Byte × Option Error := (rc.data, rc.err)

/-- `func (doc *Doc) Decompress() error`: the document afterwards and the error
(the deferred `reader.Close()` drops its result). -/
def Doc.Decompress (cs : Codecs) (doc : Doc) : Doc × Option Error :=
  match doc.getDecompressReader cs with
  | Except.error err => (doc, some err)
  | Except.ok reader =>
    match ReadAll reader with
    | (_, some err) => (doc, some err)
    | (data, none) => ({ doc with Content := data }, none)

/-- `func ReadDoc(r io.Reader, compressType int, decompress bool) (*Doc, error)`:
the pointer (`none` is `nil`), the error, and the reader afterwards. -/
def ReadDoc (cs : Codecs) (r : Reader) (compressType : Int) (decompress : Bool) :
    Option Doc × Option Error × Reader :=
  match (Doc.new compressType).read r with
  | (_, some err, r1) => (none, some err, r1)
  | (doc, none, r1) =>
    if decompress ∧ compressType ≠ NONE then
      if doc.Key = EmptyDocKey then
        (some { doc with Content := EmptyDocKey }, none, r1)
      else
        match doc.Decompress cs with
        | (_, some err) => (none, some err, r1)
        | (doc1, none) => (some doc1, none, r1)
    else (some doc, none, r1)

/-- The four little-endian bytes of an `int32` (two's complement). -/
def putInt32le (v : Int) : List Byte :=
  let u : Nat := (v % 2 ^ 32).toNat
  [Fin.ofNat u, Fin.ofNat (u / 2 ^ 8), Fin.ofNat (u / 2 ^ 16), Fin.ofNat (u / 2 ^ 24)]

/-- Modelled from the spec: the record encoding (the encoder `writeDoc` is not among
the sources) writes the key size, the key bytes, the payload size and the payload
bytes in that order, the sizes as 4-byte little-endian integers. -/
def encodeRecord (key payload : List Byte) : List Byte :=
  putInt32le key.length ++ key ++ putInt32le payload.length ++ payload

/-- Modelled from the spec: a tombstone record carries a key and a negative payload
size, and no payload bytes. -/
def encodeTombstone (key : List Byte) (payloadSize : Int) : List Byte :=
  putInt32le key.length ++ key ++ putInt32le payloadSize

/-- Decoders that reject every stream: `gzip.NewReader` fails on the header and the
bzip2 stream stops with an error before yielding a byte. -/
def Codecs.rejecting : Codecs :=
  { gzipNewReader := fun _ => Except.error (Error.codec 0)
    bzip2NewReader := fun _ => ⟨[], some (Error.codec 1)⟩ }

/-- `var CompressTypes = map[string]int{...}`, as the list of its entries. -/
def CompressTypes : List (String × Int) :=
  [("gzip", GZIP), ("none", NONE), ("zip", ZIP), ("bzip2", BZIP2), ("bz2", BZIP2),
   ("br", BROTLI), ("brotli", BROTLI), ("lz4", LZ4)]

/-- The map access `CompressTypes[name]` with its `ok` flag (`none` is `!ok`). -/
def compressType? (name : String) : Option Int := CompressTypes.lookup name

/-- The names the command line accepts for `CompressType`, from the struct tag
`enum:"gzip,bz2,zip"` of `client` in `main.go`. -/
def clientCompressTypeEnum : List String := ["gzip", "bz2", "zip"]

/-- `type docWriter struct { w io.Writer }`, over any kind `W` of underlying writer. -/
structure docWriter (W : Type) where
  w : W

/-- `func (w *docWriter) Write(doc *Doc) (int, error)`: the count, the error and the
writer afterwards. The document pointer may be `nil` (`none`); `writeDoc`, the
method `doc.writeDoc(w.w)` that is not among the sources, is a parameter. -/
def docWriter.Write {W : Type} (writeDoc : Doc → W → Int × Option Error × W)
    (dw : docWriter W) (doc : Option Doc) : Int × Option Error × docWriter W :=
  match doc with
  | none => (0, none, dw)
  | some d =>
    match writeDoc d dw.w with
    | (n, err, w1) => (n, err, { dw with w := w1 })

/-- The `int32` a 32-bit pattern stands for in two's complement: the one integer in
`[-2^31, 2^31)` congruent to it modulo `2^32`. -/
def IsInt32Of (v : Int) (bits : Nat) : Prop :=
  -2 ^ 31 ≤ v ∧ v < 2 ^ 31 ∧ (v - (bits : Int)) % 2 ^ 32 = 0

instance (v : Int) (bits : Nat) : Decidable (IsInt32Of v bits) := by
  unfold IsInt32Of
  infer_instance

/-! ## Lemmas on the size fields and the reader -/

theorem sum_le_bytes (u : Nat) (h : u < 4294967296) :
    u % 256 + 256 * (u / 256 % 256) + 65536 * (u / 65536 % 256)
      + 16777216 * (u / 16777216 % 256) = u := by
  omega

theorem ReadKeySize_putInt32le (v : Int) (rest : List Byte)
    (h1 : -2 ^ 31 ≤ v) (h2 : v < 2 ^ 31) :
    ReadKeySize (putInt32le v ++ rest) = (v, none, rest) := by
  simp only [putInt32le, List.cons_append, List.nil_append, ReadKeySize, int32le]
  simp only [Fin.ofNat, Fin.val_mk]
  have hu : ((v % 2 ^ 32).toNat : Int) = v % 2 ^ 32 :=
    Int.toNat_of_nonneg (Int.emod_nonneg _ (by norm_num))
  have hlt : (v % 2 ^ 32).toNat < 4294967296 := by
    have : v % 2 ^ 32 < 2 ^ 32 := Int.emod_lt_of_pos _ (by norm_num)
    omega
  generalize (v % 2 ^ 32).toNat = u at hu hlt
  norm_num at hu h1 h2 ⊢
  rw [sum_le_bytes u hlt]
  split_ifs with hc <;> omega

theorem Read_append (xs rest : List Byte) :
    Reader.Read (xs ++ rest) xs.length = (xs, xs.length, none, rest) := by
  unfold Reader.Read
  by_cases hx : xs = []
  · simp [hx]
  · have hpos : xs.length ≠ 0 := by simpa [List.length_eq_zero] using hx
    simp [hx, hpos]

theorem readBytes_append (xs rest : List Byte) :
    readBytes (xs ++ rest) xs.length = (xs, none, rest) := by
  simp [readBytes, Read_append]

/-- What `Doc.read` does once a valid key-size field and the whole key are there:
the key is stored and the payload-size field is read next. -/
theorem read_after_key (doc : Doc) (key r2 : List Byte)
    (hk0 : 0 < key.length) (hk : (key.length : Int) ≤ KeySizeLimit) :
    doc.read (putInt32le key.length ++ (key ++ r2)) =
      match ReadKeySize r2 with
      | (_, some err, r3) => ({ doc with Key := key }, some err, r3)
      | (valueSize, none, r3) =>
        if valueSize < 0 then ({ doc with Key := key }, none, r3)
        else
          match Reader.Read r3 valueSize.toNat with
          | (_, _, some err, r4) => ({ doc with Key := key }, some err, r4)
          | (valueBuf, _, none, r4) =>
            ({ doc with Key := key, CompressContent := some valueBuf }, none, r4) := by
  have hk2 : (key.length : Int) < 2 ^ 31 := by
    have : KeySizeLimit = 100 := rfl
    omega
  have h0 : ¬ ((key.length : Int) ≤ 0 ∨ (key.length : Int) > KeySizeLimit) := by
    omega
  unfold Doc.read
  rw [ReadKeySize_putInt32le _ _ (by omega) hk2]
  simp only [h0, if_false, Int.toNat_ofNat, readBytes_append]

theorem length_putInt32le (v : Int) : (putInt32le v).length = 4 := rfl

/-- A tombstone frame after a valid key: the key is stored, nothing else changes,
and the reader stands right after the payload-size field. -/
theorem read_tombstone_frame (doc : Doc) (key rest : List Byte) (v : Int)
    (hk0 : 0 < key.length) (hk : (key.length : Int) ≤ KeySizeLimit)
    (hv1 : -2 ^ 31 ≤ v) (hv2 : v < 0) :
    doc.read (encodeTombstone key v ++ rest) = ({ doc with Key := key }, none, rest) := by
  have hin : encodeTombstone key v ++ rest
      = putInt32le key.length ++ (key ++ (putInt32le v ++ rest)) := by
    simp [encodeTombstone, List.append_assoc]
  rw [hin, read_after_key doc key _ hk0 hk,
    ReadKeySize_putInt32le _ _ hv1 (by omega)]
  simp only [hv2, if_true]

/-- A whole record after a valid key: key and payload are stored and the reader
stands right after the payload. -/
theorem read_encodeRecord_aux (doc : Doc) (key payload rest : List Byte)
    (hk0 : 0 < key.length) (hk : (key.length : Int) ≤ KeySizeLimit)
    (hp : (payload.length : Int) < 2 ^ 31) :
    doc.read (encodeRecord key payload ++ rest) =
      ({ doc with Key := key, CompressContent := some payload }, none, rest) := by
  have hin : encodeRecord key payload ++ rest
      = putInt32le key.length ++ (key ++ (putInt32le payload.length ++ (payload ++ rest))) := by
    simp [encodeRecord, List.append_assoc]
  rw [hin, read_after_key doc key _ hk0 hk,
    ReadKeySize_putInt32le _ _ (by omega) hp]
  have hneg : ¬ ((payload.length : Int) < 0) := by omega
  simp only [hneg, if_false, Int.toNat_ofNat, Read_append]

/-- The errors of `ReadKeySize` are `io.EOF` and `io.ErrUnexpectedEOF`. -/
theorem ReadKeySize_err (r : Reader) :
    (ReadKeySize r).2.1 = none ∨ (ReadKeySize r).2.1 = some Error.EOF
      ∨ (ReadKeySize r).2.1 = some Error.ErrUnexpectedEOF := by
  unfold ReadKeySize
  split <;> simp

/-- The only error of `Read` is `io.EOF`. -/
theorem Read_err (r : Reader) (size : Nat) :
    (Reader.Read r size).2.2.1 = none ∨ (Reader.Read r size).2.2.1 = some Error.EOF := by
  unfold Reader.Read
  split_ifs <;> simp

/-- The errors of `readBytes` are `io.EOF` and `ErrReadKey`. -/
theorem readBytes_err (r : Reader) (size : Nat) :
    (readBytes r size).2.1 = none ∨ (readBytes r size).2.1 = some Error.EOF
      ∨ (readBytes r size).2.1 = some Error.ErrReadKey := by
  have h := Read_err r size
  unfold readBytes
  rcases hr : Reader.Read r size with ⟨buf, n, err, r1⟩
  rw [hr] at h
  rcases h with h | h
  · simp only at h
    subst h
    by_cases hn : n = size <;> simp [hn]
  · simp only at h
    subst h
    simp

theorem ReadKeySize_err_of {r r1 : Reader} {v : Int} {e : Error}
    (h : ReadKeySize r = (v, some e, r1)) : e = Error.EOF ∨ e = Error.ErrUnexpectedEOF := by
  have := ReadKeySize_err r
  rw [h] at this
  simpa using this

theorem Read_err_of {r r1 : Reader} {size n : Nat} {buf : List Byte} {e : Error}
    (h : Reader.Read r size = (buf, n, some e, r1)) : e = Error.EOF := by
  have := Read_err r size
  rw [h] at this
  simpa using this

theorem readBytes_err_of {r r1 : Reader} {size : Nat} {buf : List Byte} {e : Error}
    (h : readBytes r size = (buf, some e, r1)) : e = Error.EOF ∨ e = Error.ErrReadKey := by
  have := readBytes_err r size
  rw [h] at this
  simpa using this

/-- `Doc.read` never returns `ErrNotSupport`. -/
theorem read_err_ne_notSupport (doc : Doc) (r : Reader) :
    (doc.read r).2.1 ≠ some Error.ErrNotSupport := by
  unfold Doc.read
  split
  · next h1 =>
    rcases ReadKeySize_err_of h1 with h | h <;> simp [h]
  · split
    · simp
    · split
      · next h2 =>
        rcases readBytes_err_of h2 with h | h <;> simp [h]
      · split
        · next h3 =>
          rcases ReadKeySize_err_of h3 with h | h <;> simp [h]
        · split
          · simp
          · split
            · next h4 =>
              simp [Read_err_of h4]
            · simp

/-- `Doc.read` leaves `Content` and `CompressType` as they were. -/
theorem read_Content (doc : Doc) (r : Reader) :
    (doc.read r).1.Content = doc.Content ∧ (doc.read r).1.CompressType = doc.CompressType := by
  unfold Doc.read
  repeat' split
  all_goals simp

/-- A `Read` of more bytes than are left: `io.EOF` on an empty reader, otherwise a
short count, and in both cases nothing is left to read. -/
theorem readBytes_short (r : Reader) (size : Nat) (h : r.length < size) :
    readBytes r size
      = ([], some (if r = [] then Error.EOF else Error.ErrReadKey), []) := by
  have hs : size ≠ 0 := by omega
  unfold readBytes Reader.Read
  by_cases hr : r = []
  · simp [hs, hr]
  · have hn : min size r.length = r.length := by omega
    have hne : ¬ r.length = size := by omega
    simp [hs, hr, hn, hne]

/-- A key that `readBytes` returns without error has the length asked for. -/
theorem readBytes_ok_length {r r1 : Reader} {size : Nat} {buf : List Byte}
    (h : readBytes r size = (buf, none, r1)) : buf.length = size := by
  unfold readBytes Reader.Read at h
  by_cases hs : size = 0
  · simp [hs] at h
    simp [h.1.symm, hs]
  · by_cases hr : r = []
    · simp [hs, hr] at h
    · simp only [hs, hr, if_false] at h
      by_cases hn : min size r.length = size
      · simp only [hn, ne_eq, not_true_eq_false, if_false, Prod.mk.injEq] at h
        rw [← h.1]
        have hle : size ≤ r.length := by omega
        simp [hle]
      · simp [hn] at h

/-- What a successful `Doc.read` says about the key: its length is the key-size field
read first, which lies in `(0, KeySizeLimit]`. -/
theorem read_ok_key {doc d : Doc} {r r1 : Reader} (h : doc.read r = (d, none, r1)) :
    0 < d.Key.length ∧ (d.Key.length : Int) ≤ KeySizeLimit
      ∧ (d.Key.length : Int) = (ReadKeySize r).1 ∧ (ReadKeySize r).2.1 = none := by
  unfold Doc.read at h
  split at h
  · simp at h
  · next keySize r0 hk =>
    rw [hk]
    split at h
    · simp at h
    · next hb =>
      split at h
      · simp at h
      · next keyBuf r2 hkey =>
        have hlen := readBytes_ok_length hkey
        have hd : d.Key = keyBuf := by
          split at h
          · simp at h
          · split at h
            · simp only [Prod.mk.injEq] at h
              rw [← h.1]
            · split at h
              · simp at h
              · simp only [Prod.mk.injEq] at h
                rw [← h.1]
        rw [hd, hlen]
        simp only [not_or, not_le, gt_iff_lt, not_lt] at hb
        refine ⟨by omega, by omega, by omega, rfl⟩

/-- A name has an entry in a table exactly when it is among the table's names. -/
theorem lookup_isSome_iff (name : String) (table : List (String × Int)) :
    (table.lookup name).isSome = true ↔ name ∈ table.map Prod.fst := by
  induction table with
  | nil => simp
  | cons entry tl ih =>
    obtain ⟨k, v⟩ := entry
    by_cases hk : name = k
    · subst hk
      simp [List.lookup]
    · have hb : (name == k) = false := by simpa using hk
      simp [List.lookup, hb, ih, hk]

/-- What `ReadDoc` returns with `decompress = false`: the outcome of `Doc.read`. -/
theorem ReadDoc_false (cs : Codecs) (r : Reader) (compressType : Int) :
    ReadDoc cs r compressType false
      = (match (Doc.new compressType).read r with
        | (_, some err, r1) => (none, some err, r1)
        | (doc, none, r1) => (some doc, none, r1)) := by
  unfold ReadDoc
  rcases (Doc.new compressType).read r with ⟨d, err, r1⟩
  cases err <;> simp

/-- A payload of exactly `2^31` bytes: its size field is `00 00 00 80`, which reads
back as `-2^31`, so the record is read as a tombstone and the payload is left. -/
theorem read_payload_length_2pow31 (doc : Doc) (payload : List Byte)
    (h : payload.length = 2147483648) :
    doc.read (encodeRecord [97] payload) = ({ doc with Key := [97] }, none, payload) := by
  have hsize : putInt32le ((2147483648 : Nat) : Int) = [0, 0, 0, 128] := by decide
  have hin : encodeRecord [97] payload
      = putInt32le (([97] : List Byte).length : Int)
          ++ ([97] ++ ((0 : Byte) :: 0 :: 0 :: 128 :: payload)) := by
    unfold encodeRecord
    rw [h, hsize]
    simp only [List.append_assoc, List.cons_append, List.nil_append]
  have hfield : ReadKeySize ((0 : Byte) :: 0 :: 0 :: 128 :: payload)
      = (-2147483648, none, payload) := by
    have hv : int32le 0 0 0 128 = -2147483648 := by decide
    simp only [ReadKeySize, hv]
  rw [hin, read_after_key doc [97] _ (by decide) (by decide), hfield]
  simp

/-! ## The claims -/

/-- C1 (round trip), the claim as stated fails for a payload of `2^31` bytes: its
length does not fit the 4-byte signed size field, whose bytes `00 00 00 80` are read
back as `-2^31`, so `Doc.read` takes the record with key `a` for a tombstone: it
returns no error, leaves `CompressContent` `nil` instead of the payload, and leaves
the whole payload unread. -/
theorem read_encodeRecord_payload_2pow31 :
    (Doc.new GZIP).read (encodeRecord [97] (List.replicate 2147483648 0))
        = ({ Doc.new GZIP with Key := [97] }, none, List.replicate 2147483648 0)
      ∧ ((Doc.new GZIP).read (encodeRecord [97] (List.replicate 2147483648 0))).1.CompressContent
        ≠ some (List.replicate 2147483648 0) := by
  have h := read_payload_length_2pow31 (Doc.new GZIP) (List.replicate 2147483648 0)
    (List.length_replicate _ _)
  refine ⟨h, ?_⟩
  rw [h]
  exact fun hc => Option.noConfusion hc

/-- C1 (round trip), amended: for every key with `0 < len(key) <= KeySizeLimit` and
every payload shorter than `2^31` bytes, the lengths a 4-byte signed size field can
hold, `Doc.read` on the record encoding of `(key, payload)`, whatever bytes follow
it, returns no error, sets `Key` to the key and `CompressContent` to the payload,
changes nothing else of the document, and leaves the following bytes unread. The
empty payload is included for the reader modelled here, a regular file, whose `Read`
into an empty buffer returns `(0, nil)`. -/
theorem read_encodeRecord (doc : Doc) (key payload rest : List Byte)
    (hk0 : 0 < key.length) (hk : (key.length : Int) ≤ KeySizeLimit)
    (hp : (payload.length : Int) < 2 ^ 31) :
    doc.read (encodeRecord key payload ++ rest) =
      ({ doc with Key := key, CompressContent := some payload }, none, rest) :=
  read_encodeRecord_aux doc key payload rest hk0 hk hp

theorem read_encodeRecord_witness :
    (Doc.new GZIP).read (encodeRecord [97, 98] [31, 139, 8] ++ []) =
      ({ Doc.new GZIP with Key := [97, 98], CompressContent := some [31, 139, 8] },
        none, []) :=
  read_encodeRecord (Doc.new GZIP) [97, 98] [31, 139, 8] [] (by decide) (by decide)
    (by decide)

/-- C2 (bounds): whenever the first four bytes of the input decode to a key size
that is zero, negative or greater than `KeySizeLimit`, `Doc.read` fails with
`InvalidDocumentFound` whatever bytes follow, with the document untouched; and a key
of exactly `KeySizeLimit` bytes followed by a complete payload field (a payload size
with its payload bytes, or a negative payload size) is read without error. -/
theorem read_keySize_bounds (doc : Doc) (b0 b1 b2 b3 : Byte) (follow : List Byte)
    (key payload rest : List Byte) (v : Int)
    (hbad : int32le b0 b1 b2 b3 ≤ 0 ∨ KeySizeLimit < int32le b0 b1 b2 b3)
    (hkey : (key.length : Int) = KeySizeLimit)
    (hp : (payload.length : Int) < 2 ^ 31) (hv1 : -2 ^ 31 ≤ v) (hv2 : v < 0) :
    doc.read (b0 :: b1 :: b2 :: b3 :: follow)
        = (doc, some Error.InvalidDocumentFound, follow)
      ∧ doc.read (encodeRecord key payload ++ rest)
        = ({ doc with Key := key, CompressContent := some payload }, none, rest)
      ∧ doc.read (encodeTombstone key v ++ rest) = ({ doc with Key := key }, none, rest) := by
  have hlim : KeySizeLimit = 100 := rfl
  have hk0 : 0 < key.length := by omega
  refine ⟨?_, read_encodeRecord_aux doc key payload rest hk0 (by omega) hp,
    read_tombstone_frame doc key rest v hk0 (by omega) hv1 hv2⟩
  have hc : int32le b0 b1 b2 b3 ≤ 0 ∨ int32le b0 b1 b2 b3 > KeySizeLimit := by
    rcases hbad with h | h
    · exact Or.inl h
    · exact Or.inr h
  simp only [Doc.read, ReadKeySize, hc, if_true]

theorem read_keySize_bounds_witness :
    (Doc.new GZIP).read (0 :: 0 :: 0 :: 0 :: [7, 7])
        = (Doc.new GZIP, some Error.InvalidDocumentFound, [7, 7])
      ∧ (Doc.new GZIP).read (encodeRecord (List.replicate 100 97) [1, 2] ++ [9])
        = ({ Doc.new GZIP with Key := List.replicate 100 97,
                               CompressContent := some [1, 2] }, none, [9])
      ∧ (Doc.new GZIP).read (encodeTombstone (List.replicate 100 97) (-1) ++ [9])
        = ({ Doc.new GZIP with Key := List.replicate 100 97 }, none, [9]) :=
  read_keySize_bounds (Doc.new GZIP) 0 0 0 0 [7, 7] (List.replicate 100 97) [1, 2] [9] (-1)
    (by decide) (by simp [KeySizeLimit]) (by simp) (by norm_num) (by norm_num)

/-- C3 (tombstone law): for every valid key and every negative payload-size field,
`Doc.read` on key size, key, payload size and any following bytes returns no error,
sets `Key` to the key and changes nothing else (so `CompressContent` of the fresh
document `ReadDoc` reads into stays `nil`), and consumes exactly `8 + keySize`
bytes: all the following bytes are left unread. -/
theorem read_tombstone (doc : Doc) (compressType : Int) (key rest : List Byte) (v : Int)
    (hk0 : 0 < key.length) (hk : (key.length : Int) ≤ KeySizeLimit)
    (hv1 : -2 ^ 31 ≤ v) (hv2 : v < 0) :
    doc.read (encodeTombstone key v ++ rest) = ({ doc with Key := key }, none, rest)
      ∧ ((Doc.new compressType).read (encodeTombstone key v ++ rest)).1.CompressContent = none
      ∧ (encodeTombstone key v ++ rest).length - rest.length = 8 + key.length := by
  refine ⟨read_tombstone_frame doc key rest v hk0 hk hv1 hv2, ?_, ?_⟩
  · rw [read_tombstone_frame _ key rest v hk0 hk hv1 hv2]
    rfl
  · simp only [encodeTombstone, List.length_append, length_putInt32le]
    omega

theorem read_tombstone_witness :
    (Doc.new GZIP).read (encodeTombstone [98] (-1) ++ [5, 6])
        = ({ Doc.new GZIP with Key := [98] }, none, [5, 6])
      ∧ ((Doc.new GZIP).read (encodeTombstone [98] (-1) ++ [5, 6])).1.CompressContent = none
      ∧ (encodeTombstone [98] (-1) ++ [5, 6]).length - [5, 6].length = 8 + [98].length :=
  read_tombstone (Doc.new GZIP) GZIP [98] [5, 6] (-1)
    (by decide) (by decide) (by norm_num) (by norm_num)

/-- C4 (truncated payload), at a failing input: the record with key `a` declares a
payload of two bytes and the input ends after the first of them; `Doc.read` returns
no error and a payload of the declared length, the byte read followed by a zero. -/
theorem read_truncated_payload_accepted :
    (Doc.new GZIP).read [1, 0, 0, 0, 97, 2, 0, 0, 0, 5]
      = ({ Doc.new GZIP with Key := [97], CompressContent := some [5, 0] }, none, []) := by
  decide

/-- C5 (sentinel law), the claim as stated fails under the tag `NONE`: the record
with key `empty-doc.` and payload `01 02 03` is decoded by `Doc.read`, and `ReadDoc`
with `decompress = true` under `NONE` returns it with an empty `Content`, which is
not `empty-doc.`. -/
theorem ReadDoc_sentinel_NONE :
    ((Doc.new NONE).read (encodeRecord EmptyDocKey [1, 2, 3])).2.1 = none
      ∧ ((Doc.new NONE).read (encodeRecord EmptyDocKey [1, 2, 3])).1.Key = EmptyDocKey
      ∧ ReadDoc Codecs.rejecting (encodeRecord EmptyDocKey [1, 2, 3]) NONE true
        = (some { Key := EmptyDocKey, Content := [], CompressContent := some [1, 2, 3],
                  CompressType := NONE }, none, [])
      ∧ ([] : List Byte) ≠ EmptyDocKey := by
  decide

/-- C5 (sentinel law), amended: for every input that `Doc.read` decodes without
error into a document whose key is `empty-doc.`, and for every compression tag
other than `NONE`, `ReadDoc` with `decompress = true` returns no error and that
document with `Content` set to `empty-doc.`, whatever the raw payload is and
whatever the decoders would do with it: the result does not depend on them. -/
theorem ReadDoc_sentinel (cs : Codecs) (r r1 : Reader) (compressType : Int) (doc : Doc)
    (hread : (Doc.new compressType).read r = (doc, none, r1))
    (hkey : doc.Key = EmptyDocKey) (htag : compressType ≠ NONE) :
    ReadDoc cs r compressType true
      = (some { doc with Content := EmptyDocKey }, none, r1) := by
  simp [ReadDoc, hread, hkey, htag]

theorem ReadDoc_sentinel_witness :
    ReadDoc Codecs.rejecting (encodeRecord EmptyDocKey [1, 2, 3] ++ [4]) GZIP true
      = (some { ({ Key := EmptyDocKey, Content := [], CompressContent := some [1, 2, 3],
                   CompressType := GZIP } : Doc) with Content := EmptyDocKey }, none, [4]) :=
  ReadDoc_sentinel Codecs.rejecting (encodeRecord EmptyDocKey [1, 2, 3] ++ [4]) [4] GZIP
    { Key := EmptyDocKey, Content := [], CompressContent := some [1, 2, 3],
      CompressType := GZIP } (by decide) rfl (by decide)

/-- C6 (tombstone read with decompression requested), at a failing input: on the
tombstone record with key `b`, `ReadDoc` with `decompress = true` under `GZIP` hands
the empty stream to `gzip.NewReader` and returns what comes of it, and under `BZIP2`
it reads the bzip2 stream over the empty input to its end; whenever the decoder
reports an error on the empty stream, `ReadDoc` returns that error and no document. -/
theorem ReadDoc_tombstone_decompress (cs : Codecs) :
    ReadDoc cs (encodeTombstone [98] (-1)) GZIP true
        = (match cs.gzipNewReader [] with
          | Except.error e => (none, some e, [])
          | Except.ok rc =>
            match rc.err with
            | some e => (none, some e, [])
            | none => (some { Key := [98], Content := rc.data, CompressContent := none,
                              CompressType := GZIP }, none, []))
      ∧ ReadDoc cs (encodeTombstone [98] (-1)) BZIP2 true
        = (match (cs.bzip2NewReader []).err with
          | some e => (none, some e, [])
          | none => (some { Key := [98], Content := (cs.bzip2NewReader []).data,
                            CompressContent := none, CompressType := BZIP2 }, none, [])) := by
  have hg : (Doc.new GZIP).read (encodeTombstone [98] (-1))
      = ({ Key := [98], Content := [], CompressContent := none, CompressType := GZIP },
          none, []) := by decide
  have hb : (Doc.new BZIP2).read (encodeTombstone [98] (-1))
      = ({ Key := [98], Content := [], CompressContent := none, CompressType := BZIP2 },
          none, []) := by decide
  have hk : ¬ (([98] : List Byte) = EmptyDocKey) := by decide
  have hgn : GZIP ≠ NONE := by decide
  have hbn : BZIP2 ≠ NONE := by decide
  have hbg : BZIP2 ≠ GZIP := by decide
  constructor
  · simp only [ReadDoc, hg, hk, hgn, Doc.Decompress, Doc.getDecompressReader, sliceBytes,
      ReadAll, Option.getD_none, ne_eq, not_false_eq_true, and_self, if_true, if_false]
    cases hc : cs.gzipNewReader [] with
    | error e => rfl
    | ok rc =>
      cases he : rc.err with
      | none => simp [he]
      | some e => simp [he]
  · simp only [ReadDoc, hb, hk, hbn, hbg, Doc.Decompress, Doc.getDecompressReader,
      sliceBytes, ReadAll, Option.getD_none, ne_eq, not_false_eq_true, and_self, if_true,
      if_false]
    cases he : (cs.bzip2NewReader []).err with
    | none => simp [he]
    | some e => simp [he]

/-- C7 (end-of-file), at failing inputs: `Doc.read` returns `io.EOF` when the input
ends right after a valid key-size field, when it ends right after the key, and when
it ends right after a payload-size field that declares a non-empty payload; in each
case bytes of the record have been consumed. -/
theorem read_EOF_mid_record :
    (Doc.new GZIP).read [1, 0, 0, 0] = (Doc.new GZIP, some Error.EOF, [])
      ∧ (Doc.new GZIP).read [1, 0, 0, 0, 97]
        = ({ Doc.new GZIP with Key := [97] }, some Error.EOF, [])
      ∧ (Doc.new GZIP).read [1, 0, 0, 0, 97, 2, 0, 0, 0]
        = ({ Doc.new GZIP with Key := [97] }, some Error.EOF, []) := by
  decide

/-- C8 (unsupported tags): for every document whose compression tag is neither
`GZIP` nor `BZIP2` (so `ZIP`, `BROTLI`, `LZ4`, `NONE` and every other integer),
`Doc.Decompress` returns `ErrNotSupport` and leaves the document as it was, whatever
the raw payload and whatever the decoders. -/
theorem Decompress_unsupported (cs : Codecs) (doc : Doc)
    (hg : doc.CompressType ≠ GZIP) (hb : doc.CompressType ≠ BZIP2) :
    doc.Decompress cs = (doc, some Error.ErrNotSupport) := by
  simp [Doc.Decompress, Doc.getDecompressReader, hg, hb]

theorem Decompress_unsupported_witness :
    ({ Key := [97], Content := [], CompressContent := some [31, 139],
       CompressType := ZIP } : Doc).Decompress Codecs.rejecting
      = ({ Key := [97], Content := [], CompressContent := some [31, 139],
           CompressType := ZIP }, some Error.ErrNotSupport) :=
  Decompress_unsupported Codecs.rejecting
    { Key := [97], Content := [], CompressContent := some [31, 139], CompressType := ZIP }
    (by decide) (by decide)

/-- C9 (`NONE` bypasses dispatch): for every input and all decoders, `ReadDoc` with
tag `NONE` and `decompress = true` returns exactly what it returns with
`decompress = false`; its error is never `ErrNotSupport`, and a document it returns
has an empty `Content`. -/
theorem ReadDoc_NONE (cs : Codecs) (r : Reader) :
    ReadDoc cs r NONE true = ReadDoc cs r NONE false
      ∧ (ReadDoc cs r NONE true).2.1 ≠ some Error.ErrNotSupport
      ∧ ∀ doc, (ReadDoc cs r NONE true).1 = some doc → doc.Content = [] := by
  have hc := read_Content (Doc.new NONE) r
  have he := read_err_ne_notSupport (Doc.new NONE) r
  simp only [ReadDoc, ne_eq, not_true_eq_false, and_false, if_false]
  rcases hr : (Doc.new NONE).read r with ⟨d, err, r1⟩
  rw [hr] at hc he
  cases err with
  | none =>
    refine ⟨by simp, by simp, ?_⟩
    intro doc hdoc
    simp only [Option.some.injEq] at hdoc
    subst hdoc
    exact hc.1
  | some e =>
    refine ⟨by simp, ?_, by simp⟩
    simpa using he

/-- C10 (no partial success): for every input, tag, decompress flag and decoders,
`ReadDoc` returns either a document and no error, or no document and an error; an
error of `Doc.read` comes back with no document, and so does an error of
`Doc.Decompress` when the document read is handed to it. -/
theorem ReadDoc_no_partial_success (cs : Codecs) (r : Reader) (compressType : Int)
    (decompress : Bool) :
    (((ReadDoc cs r compressType decompress).1.isSome = true
          ∧ (ReadDoc cs r compressType decompress).2.1 = none)
        ∨ ((ReadDoc cs r compressType decompress).1 = none
          ∧ (ReadDoc cs r compressType decompress).2.1.isSome = true))
      ∧ (∀ e, ((Doc.new compressType).read r).2.1 = some e →
          (ReadDoc cs r compressType decompress).1 = none
            ∧ (ReadDoc cs r compressType decompress).2.1 = some e)
      ∧ (∀ d r1 e, (Doc.new compressType).read r = (d, none, r1) →
          decompress = true → compressType ≠ NONE → d.Key ≠ EmptyDocKey →
          (d.Decompress cs).2 = some e →
          ReadDoc cs r compressType decompress = (none, some e, r1)) := by
  unfold ReadDoc
  rcases hr : (Doc.new compressType).read r with ⟨d, err, r1⟩
  cases err with
  | some e => simp
  | none =>
    refine ⟨?_, by simp, ?_⟩
    · by_cases hc : decompress = true ∧ compressType ≠ NONE
      · by_cases hk : d.Key = EmptyDocKey
        · simp [hc, hk]
        · rcases hd : d.Decompress cs with ⟨d1, err1⟩
          cases err1 <;> simp [hc, hk, hd]
      · simp [hc]
    · intro d2 r2 e hd hdec htag hkey herr
      simp only [Prod.mk.injEq, true_and] at hd
      obtain ⟨rfl, rfl⟩ := hd
      rcases hd : d.Decompress cs with ⟨d1, err1⟩
      rw [hd] at herr
      simp only at herr
      subst herr
      simp [hdec, htag, hkey, hd]

/-- The whole document is as it was whenever `Doc.Decompress` returns an error. -/
theorem Decompress_err_doc (cs : Codecs) (doc : Doc) (e : Error)
    (h : (doc.Decompress cs).2 = some e) : (doc.Decompress cs).1 = doc := by
  unfold Doc.Decompress at h ⊢
  cases hg : doc.getDecompressReader cs with
  | error err => rfl
  | ok rc =>
    rw [hg] at h
    simp only [ReadAll] at h ⊢
    cases he : rc.err with
    | some err => rfl
    | none => simp [he] at h

/-- `Doc.Decompress` changes nothing but `Content`. -/
theorem Decompress_Key (cs : Codecs) (doc : Doc) :
    (doc.Decompress cs).1.Key = doc.Key
      ∧ (doc.Decompress cs).1.CompressContent = doc.CompressContent := by
  unfold Doc.Decompress
  cases hg : doc.getDecompressReader cs with
  | error err => exact ⟨rfl, rfl⟩
  | ok rc =>
    simp only [ReadAll]
    cases he : rc.err with
    | some err => exact ⟨rfl, rfl⟩
    | none => exact ⟨rfl, rfl⟩

/-- C11 (decompression failure is atomic): for every document and all decoders,
whenever `Doc.Decompress` returns an error (unsupported tag, `gzip.NewReader`
failing, or `io.ReadAll` stopping with an error after any number of bytes) the
document, its `Content` included, is exactly what it was before the call; and
whenever it returns no error, a reader was built, `io.ReadAll` read it to the end
without error, and `Content` is the data read. -/
theorem Decompress_atomic (cs : Codecs) (doc : Doc) (e : Error)
    (h : (doc.Decompress cs).2 = some e) :
    (doc.Decompress cs).1 = doc
      ∧ (doc.Decompress cs).1.Content = doc.Content
      ∧ (∀ doc2 : Doc, (doc2.Decompress cs).2 = none →
          ∃ rc, doc2.getDecompressReader cs = Except.ok rc ∧ rc.err = none
            ∧ (doc2.Decompress cs).1 = { doc2 with Content := rc.data }) := by
  have hd := Decompress_err_doc cs doc e h
  refine ⟨hd, by rw [hd], ?_⟩
  intro doc2 h2
  unfold Doc.Decompress at h2 ⊢
  cases hg : doc2.getDecompressReader cs with
  | error err => simp [hg] at h2
  | ok rc =>
    rw [hg] at h2
    simp only [ReadAll] at h2 ⊢
    cases he : rc.err with
    | some err => simp [he] at h2
    | none =>
      refine ⟨rc, rfl, he, ?_⟩
      simp [he]

theorem Decompress_atomic_witness :
    (({ Key := [97], Content := [111, 108, 100], CompressContent := some [66, 90, 104],
        CompressType := BZIP2 } : Doc).Decompress
        { gzipNewReader := fun _ => Except.error Error.EOF
          bzip2NewReader := fun _ => ⟨[104, 105], some Error.ErrUnexpectedEOF⟩ }).1.Content
      = [111, 108, 100] :=
  (Decompress_atomic
    { gzipNewReader := fun _ => Except.error Error.EOF
      bzip2NewReader := fun _ => ⟨[104, 105], some Error.ErrUnexpectedEOF⟩ }
    { Key := [97], Content := [111, 108, 100], CompressContent := some [66, 90, 104],
      CompressType := BZIP2 } Error.ErrUnexpectedEOF (by decide)).2.1

/-- C12 (truncated key): whenever the key-size field holds a valid size `k`
(`0 < k <= KeySizeLimit`) and fewer than `k` bytes follow it, `Doc.read` fails with
an error (`io.EOF` when no byte follows, `ErrReadKey` otherwise) and the document is
as it was: no shortened key is stored. -/
theorem read_truncated_key (doc : Doc) (b0 b1 b2 b3 : Byte) (rest : List Byte)
    (h0 : 0 < int32le b0 b1 b2 b3) (hk : int32le b0 b1 b2 b3 ≤ KeySizeLimit)
    (hshort : (rest.length : Int) < int32le b0 b1 b2 b3) :
    doc.read (b0 :: b1 :: b2 :: b3 :: rest)
        = (doc, some (if rest = [] then Error.EOF else Error.ErrReadKey), [])
      ∧ (doc.read (b0 :: b1 :: b2 :: b3 :: rest)).2.1 ≠ none
      ∧ (doc.read (b0 :: b1 :: b2 :: b3 :: rest)).1.Key = doc.Key := by
  have hc : ¬ (int32le b0 b1 b2 b3 ≤ 0 ∨ int32le b0 b1 b2 b3 > KeySizeLimit) := by
    omega
  have hlen : rest.length < (int32le b0 b1 b2 b3).toNat := by omega
  have hread : doc.read (b0 :: b1 :: b2 :: b3 :: rest)
      = (doc, some (if rest = [] then Error.EOF else Error.ErrReadKey), []) := by
    simp only [Doc.read, ReadKeySize, hc, if_false, readBytes_short rest _ hlen]
  refine ⟨hread, ?_, ?_⟩
  · rw [hread]
    simp
  · rw [hread]

theorem read_truncated_key_witness :
    (Doc.new GZIP).read (3 :: 0 :: 0 :: 0 :: [97, 98])
        = (Doc.new GZIP, some (if ([97, 98] : List Byte) = [] then Error.EOF
            else Error.ErrReadKey), [])
      ∧ ((Doc.new GZIP).read (3 :: 0 :: 0 :: 0 :: [97, 98])).2.1 ≠ none
      ∧ ((Doc.new GZIP).read (3 :: 0 :: 0 :: 0 :: [97, 98])).1.Key = (Doc.new GZIP).Key :=
  read_truncated_key (Doc.new GZIP) 3 0 0 0 [97, 98] (by decide) (by decide) (by decide)

/-- C13 (null document write): for every kind of underlying writer, every state of
it and every `writeDoc`, `docWriter.Write(nil)` returns the count `0` and no error,
and the writer is as it was: nothing is written. -/
theorem Write_nil {W : Type} (writeDoc : Doc → W → Int × Option Error × W)
    (dw : docWriter W) :
    docWriter.Write writeDoc dw none = (0, none, dw) := by
  rfl

/-- C14 (key-size invariant): for every input on which `Doc.read` returns no error,
the key stored satisfies `0 < len(Key) <= KeySizeLimit` and `len(Key)` is the
key-size field read from the head of the input; and every document `ReadDoc`
returns on that input carries a key with the same three properties. -/
theorem read_key_size_invariant (cs : Codecs) (doc : Doc) (r : Reader)
    (compressType : Int) (decompress : Bool) (h : (doc.read r).2.1 = none) :
    (0 < (doc.read r).1.Key.length
        ∧ ((doc.read r).1.Key.length : Int) ≤ KeySizeLimit
        ∧ ((doc.read r).1.Key.length : Int) = (ReadKeySize r).1)
      ∧ (∀ d, (ReadDoc cs r compressType decompress).1 = some d →
          0 < d.Key.length ∧ (d.Key.length : Int) ≤ KeySizeLimit
            ∧ (d.Key.length : Int) = (ReadKeySize r).1) := by
  constructor
  · rcases hr : doc.read r with ⟨d, err, r1⟩
    rw [hr] at h
    simp only at h
    subst h
    have := read_ok_key hr
    exact ⟨this.1, this.2.1, this.2.2.1⟩
  · intro d hd
    unfold ReadDoc at hd
    rcases hr : (Doc.new compressType).read r with ⟨d0, err, r1⟩
    rw [hr] at hd
    cases err with
    | some e => simp at hd
    | none =>
      have hk := read_ok_key hr
      have hkey : d.Key = d0.Key := by
        simp only at hd
        by_cases hc : decompress = true ∧ compressType ≠ NONE
        · by_cases hs : d0.Key = EmptyDocKey
          · rw [if_pos hc, if_pos hs] at hd
            simp only [Option.some.injEq] at hd
            rw [← hd]
          · have hK := (Decompress_Key cs d0).1
            rcases hdc : d0.Decompress cs with ⟨d1, err1⟩
            rw [hdc] at hK
            rw [if_pos hc, if_neg hs, hdc] at hd
            cases err1 with
            | some e => simp at hd
            | none =>
              simp only [Option.some.injEq] at hd
              rw [← hd]
              exact hK
        · rw [if_neg hc] at hd
          simp only [Option.some.injEq] at hd
          rw [hd]
      rw [hkey]
      exact ⟨hk.1, hk.2.1, hk.2.2.1⟩

theorem read_key_size_invariant_witness :
    (0 < ((Doc.new GZIP).read (encodeRecord [97, 98] [5])).1.Key.length
        ∧ (((Doc.new GZIP).read (encodeRecord [97, 98] [5])).1.Key.length : Int)
            ≤ KeySizeLimit
        ∧ (((Doc.new GZIP).read (encodeRecord [97, 98] [5])).1.Key.length : Int)
            = (ReadKeySize (encodeRecord [97, 98] [5])).1)
      ∧ (∀ d, (ReadDoc Codecs.rejecting (encodeRecord [97, 98] [5]) GZIP false).1 = some d →
          0 < d.Key.length ∧ (d.Key.length : Int) ≤ KeySizeLimit
            ∧ (d.Key.length : Int) = (ReadKeySize (encodeRecord [97, 98] [5])).1) :=
  read_key_size_invariant Codecs.rejecting (Doc.new GZIP) (encodeRecord [97, 98] [5])
    GZIP false (by decide)

/-- C15 (content only on request): for every input, compression tag and decoders,
a document that `ReadDoc` returns with `decompress = false` is exactly the document
`Doc.read` produced on that input without error (same `Key`, same
`CompressContent`), its `Content` is empty, and the result is the same whatever the
decoders are: `Decompress` is not invoked. -/
theorem ReadDoc_without_decompress (cs : Codecs) (r : Reader) (compressType : Int)
    (d : Doc) (h : (ReadDoc cs r compressType false).1 = some d) :
    d.Content = []
      ∧ ((Doc.new compressType).read r).2.1 = none
      ∧ d = ((Doc.new compressType).read r).1
      ∧ (ReadDoc cs r compressType false).2.1 = none
      ∧ ∀ cs2 : Codecs, ReadDoc cs2 r compressType false = ReadDoc cs r compressType false := by
  have hc := (read_Content (Doc.new compressType) r).1
  have hall : ∀ cs2 : Codecs,
      ReadDoc cs2 r compressType false = ReadDoc cs r compressType false := by
    intro cs2
    rw [ReadDoc_false, ReadDoc_false]
  rw [ReadDoc_false] at h ⊢
  rcases hr : (Doc.new compressType).read r with ⟨d0, err, r1⟩
  rw [hr] at h hc
  cases err with
  | some e => simp at h
  | none =>
    simp only [Option.some.injEq] at h
    subst h
    exact ⟨hc, rfl, rfl, rfl, fun cs2 => by rw [hall cs2, ReadDoc_false, hr]⟩

theorem ReadDoc_without_decompress_witness :
    ({ Key := [97], Content := [], CompressContent := some [31, 139],
       CompressType := GZIP } : Doc).Content = []
      ∧ ((Doc.new GZIP).read (encodeRecord [97] [31, 139])).2.1 = none
      ∧ ({ Key := [97], Content := [], CompressContent := some [31, 139],
           CompressType := GZIP } : Doc) = ((Doc.new GZIP).read (encodeRecord [97] [31, 139])).1
      ∧ (ReadDoc Codecs.rejecting (encodeRecord [97] [31, 139]) GZIP false).2.1 = none
      ∧ ∀ cs2 : Codecs, ReadDoc cs2 (encodeRecord [97] [31, 139]) GZIP false
          = ReadDoc Codecs.rejecting (encodeRecord [97] [31, 139]) GZIP false :=
  ReadDoc_without_decompress Codecs.rejecting (encodeRecord [97] [31, 139]) GZIP
    { Key := [97], Content := [], CompressContent := some [31, 139], CompressType := GZIP }
    (by decide)

/-- C16 (back-to-back records): for all well-formed records `(key1, payload1)` and
`(key2, payload2)` (keys of 1 to `KeySizeLimit` bytes, payload lengths that fit the
size field; `payload1` non-empty as in the claim, or empty), `Doc.read` on the first
encoding followed by the second yields the first record, consumes exactly
`8 + len(key1) + len(payload1)` bytes and leaves exactly the second encoding unread,
on which a second `Doc.read` yields the second record and leaves nothing. -/
theorem read_back_to_back (doc doc2 : Doc) (key1 payload1 key2 payload2 : List Byte)
    (h10 : 0 < key1.length) (h1 : (key1.length : Int) ≤ KeySizeLimit)
    (hp1 : (payload1.length : Int) < 2 ^ 31)
    (h20 : 0 < key2.length) (h2 : (key2.length : Int) ≤ KeySizeLimit)
    (hp2 : (payload2.length : Int) < 2 ^ 31) :
    doc.read (encodeRecord key1 payload1 ++ encodeRecord key2 payload2)
        = ({ doc with Key := key1, CompressContent := some payload1 }, none,
            encodeRecord key2 payload2)
      ∧ (encodeRecord key1 payload1 ++ encodeRecord key2 payload2).length
          - (encodeRecord key2 payload2).length = 8 + key1.length + payload1.length
      ∧ doc2.read (doc.read (encodeRecord key1 payload1 ++ encodeRecord key2 payload2)).2.2
        = ({ doc2 with Key := key2, CompressContent := some payload2 }, none, []) := by
  have hfirst := read_encodeRecord_aux doc key1 payload1 (encodeRecord key2 payload2)
    h10 h1 hp1
  have hsecond := read_encodeRecord_aux doc2 key2 payload2 [] h20 h2 hp2
  rw [List.append_nil] at hsecond
  refine ⟨hfirst, ?_, ?_⟩
  · simp only [encodeRecord, List.length_append, length_putInt32le]
    omega
  · rw [hfirst]
    exact hsecond

theorem read_back_to_back_witness :
    (Doc.new GZIP).read (encodeRecord [97] [1, 2] ++ encodeRecord [98] [])
        = ({ Doc.new GZIP with Key := [97], CompressContent := some [1, 2] }, none,
            encodeRecord [98] [])
      ∧ (encodeRecord [97] [1, 2] ++ encodeRecord [98] []).length
          - (encodeRecord [98] []).length = 8 + [97].length + [1, 2].length
      ∧ (Doc.new GZIP).read
          ((Doc.new GZIP).read (encodeRecord [97] [1, 2] ++ encodeRecord [98] [])).2.2
        = ({ Doc.new GZIP with Key := [98], CompressContent := some [] }, none, []) :=
  read_back_to_back (Doc.new GZIP) (Doc.new GZIP) [97] [1, 2] [98] []
    (by decide) (by decide) (by decide) (by decide) (by decide) (by decide)

/-- C17 (size fields): with four bytes `b0 b1 b2 b3` at the head of the input,
`ReadKeySize` returns without error the two's-complement 32-bit value of
`b0 + 2^8*b1 + 2^16*b2 + 2^24*b3` and consumes exactly those four bytes (so
`FF FF FF FF` is `-1` and `64 00 00 00` is `100`); with fewer than four bytes in the
input it returns an error and the value `0`. -/
theorem ReadKeySize_int32 (b0 b1 b2 b3 : Byte) (rest short : List Byte)
    (hshort : short.length < 4) :
    ReadKeySize (b0 :: b1 :: b2 :: b3 :: rest) = (int32le b0 b1 b2 b3, none, rest)
      ∧ IsInt32Of (int32le b0 b1 b2 b3)
          (b0.val + 2 ^ 8 * b1.val + 2 ^ 16 * b2.val + 2 ^ 24 * b3.val)
      ∧ (b0 :: b1 :: b2 :: b3 :: rest).length - rest.length = 4
      ∧ ReadKeySize (255 :: 255 :: 255 :: 255 :: rest) = (-1, none, rest)
      ∧ ReadKeySize (100 :: 0 :: 0 :: 0 :: rest) = (100, none, rest)
      ∧ (ReadKeySize short).1 = 0 ∧ (ReadKeySize short).2.1 ≠ none := by
  refine ⟨rfl, ?_, by simp only [List.length_cons]; omega, ?_, ?_, ?_⟩
  · have h0 := b0.isLt
    have h1 := b1.isLt
    have h2 := b2.isLt
    have h3 := b3.isLt
    unfold IsInt32Of int32le
    simp only
    norm_num
    split_ifs with hc
    · refine ⟨by omega, by omega, by simp⟩
    · refine ⟨by omega, by omega, by simp⟩
  · simp only [ReadKeySize, Prod.mk.injEq, and_true]
    decide
  · simp only [ReadKeySize, Prod.mk.injEq, and_true]
    decide
  · match short, hshort with
    | [], _ => exact ⟨rfl, by simp [ReadKeySize]⟩
    | [_], _ => exact ⟨rfl, by simp [ReadKeySize]⟩
    | [_, _], _ => exact ⟨rfl, by simp [ReadKeySize]⟩
    | [_, _, _], _ => exact ⟨rfl, by simp [ReadKeySize]⟩
    | _ :: _ :: _ :: _ :: _, h => exact absurd h (by simp only [List.length_cons]; omega)

theorem ReadKeySize_int32_witness :
    ReadKeySize (0 :: 0 :: 0 :: 128 :: [9]) = (int32le 0 0 0 128, none, [9])
      ∧ IsInt32Of (int32le 0 0 0 128)
          ((0 : Byte).val + 2 ^ 8 * (0 : Byte).val + 2 ^ 16 * (0 : Byte).val
            + 2 ^ 24 * (128 : Byte).val)
      ∧ ((0 : Byte) :: 0 :: 0 :: 128 :: [9]).length - [(9 : Byte)].length = 4
      ∧ ReadKeySize (255 :: 255 :: 255 :: 255 :: [9]) = (-1, none, [9])
      ∧ ReadKeySize (100 :: 0 :: 0 :: 0 :: [9]) = (100, none, [9])
      ∧ (ReadKeySize [1, 2, 3]).1 = 0 ∧ (ReadKeySize [1, 2, 3]).2.1 ≠ none :=
  ReadKeySize_int32 0 0 0 128 [9] [1, 2, 3] (by decide)

/-- C18 (selectable tags), at a failing input: the name `zip` is one the command
line accepts and has an entry in `CompressTypes`, the tag `ZIP`, for which
`Doc.getDecompressReader` returns `ErrNotSupport` whatever the document and the
decoders, so that `ReadDoc` with `decompress = true` fails on a well-formed record;
the other two names, `gzip` and `bz2`, resolve to `GZIP` and `BZIP2`. -/
theorem client_zip_not_supported (cs : Codecs) (doc : Doc) :
    "zip" ∈ clientCompressTypeEnum
      ∧ compressType? "zip" = some ZIP
      ∧ Doc.getDecompressReader cs { doc with CompressType := ZIP }
          = Except.error Error.ErrNotSupport
      ∧ ReadDoc cs (encodeRecord [97] [31, 139]) ZIP true
          = (none, some Error.ErrNotSupport, [])
      ∧ compressType? "gzip" = some GZIP ∧ compressType? "bz2" = some BZIP2
      ∧ ∀ name ∈ clientCompressTypeEnum, (compressType? name).isSome = true := by
  have hz : ZIP ≠ GZIP := by decide
  have hzb : ZIP ≠ BZIP2 := by decide
  have hzn : ZIP ≠ NONE := by decide
  have hr : (Doc.new ZIP).read (encodeRecord [97] [31, 139])
      = ({ Key := [97], Content := [], CompressContent := some [31, 139],
           CompressType := ZIP }, none, []) := by decide
  have hk : ¬ (([97] : List Byte) = EmptyDocKey) := by decide
  refine ⟨by decide, by decide, ?_, ?_, by decide, by decide, by decide⟩
  · simp [Doc.getDecompressReader, hz, hzb]
  · simp [ReadDoc, hr, hk, hzn, Doc.Decompress, Doc.getDecompressReader, hz, hzb]

/-- C19 (compression-name table): `CompressTypes` has an entry for exactly the eight
names `gzip`, `none`, `zip`, `bzip2`, `bz2`, `br`, `brotli`, `lz4`; `bzip2` and `bz2`
both map to `BZIP2`, `br` and `brotli` both map to `BROTLI`, `gzip`, `none`, `zip`
and `lz4` map to `GZIP`, `NONE`, `ZIP` and `LZ4`; and the six tags `GZIP`, `NONE`,
`ZIP`, `BZIP2`, `BROTLI`, `LZ4` are pairwise distinct. -/
theorem CompressTypes_table :
    (∀ name : String, (compressType? name).isSome = true
        ↔ name ∈ ["gzip", "none", "zip", "bzip2", "bz2", "br", "brotli", "lz4"])
      ∧ compressType? "bzip2" = some BZIP2 ∧ compressType? "bz2" = some BZIP2
      ∧ compressType? "br" = some BROTLI ∧ compressType? "brotli" = some BROTLI
      ∧ compressType? "gzip" = some GZIP ∧ compressType? "none" = some NONE
      ∧ compressType? "zip" = some ZIP ∧ compressType? "lz4" = some LZ4
      ∧ [GZIP, NONE, ZIP, BZIP2, BROTLI, LZ4].Pairwise (fun a b => a ≠ b) := by
  refine ⟨?_, by decide, by decide, by decide, by decide, by decide, by decide,
    by decide, by decide, by decide⟩
  intro name
  unfold compressType?
  rw [lookup_isSome_iff]
  rfl

end Binfile
